import Mathlib

/-
Verification development for the os-extras repository (src/pathutils.py and
src/utils.py): a shallow embedding of the File/Folder handle library over an
explicit filesystem-entry model, together with proofs about the embedded
operations.

Modelling conventions:
* A filesystem entry is a tree: regular files carry their content as a
  string, directories carry an association list of (name, child) in the raw
  order the operating system would report from listdir/scandir (unsorted),
  and `other` stands for an entry that is neither a regular file nor a
  directory (e.g. a broken symbolic link or a socket).  A symbolic link that
  resolves to a file or to a directory is the corresponding node with
  `link = some target`; its children/data are the view of the target through
  the link, so enumerating through the link sees the target's content
  (matching os.path.isfile/isdir/scandir, which follow links).
* Python string comparison used by sorting is code-point lexicographic;
  `strLe` implements exactly that on `Char.toNat` so that it reduces in the
  kernel.
* Handles carry `path : Option FPath`; `none` models the attribute having
  been cleared (`self._path = None` / `self.path = None`).
* Methods are state transformers returning `Except Err _`; `Err` names the
  Python exception class raised.  Recursive folder operations take a fuel
  argument; `esize e` fuel always suffices.
-/

abbrev FPath := List String

/-- Code-point lexicographic comparison of character lists, as Python
compares strings.  Defined on `Char.toNat` so it evaluates in the kernel. -/
def lexLe : List Char → List Char → Bool
  | [], _ => true
  | _ :: _, [] => false
  | a :: as, b :: bs =>
    if a.toNat < b.toNat then true
    else if b.toNat < a.toNat then false
    else lexLe as bs

/-- Python string comparison `a <= b` (code-point lexicographic). -/
def strLe (a b : String) : Bool := lexLe a.data b.data

/-- Python `needle in haystack` prefix step on character lists. -/
def listPrefixB : List Char → List Char → Bool
  | [], _ => true
  | _ :: _, [] => false
  | a :: as, b :: bs => (a == b) && listPrefixB as bs

/-- Python substring containment on character lists. -/
def listInfixB (s t : List Char) : Bool :=
  match t with
  | [] => s.isEmpty
  | _ :: ts => listPrefixB s t || listInfixB s ts

/-- Python `s in t` for strings: substring containment. -/
def substr (s t : String) : Bool := listInfixB s.data t.data

/-- Filesystem entry: file with content, directory with raw child listing,
or an entry of any other kind.  `link = some tgt` marks the node as a
symbolic link whose target is `tgt`; the node's payload is the view of the
target through the link. -/
inductive Entry where
  | file (link : Option FPath) (data : String)
  | dir (link : Option FPath) (children : List (String × Entry))
  | other

/-- Model of os.path.isfile (follows symbolic links). -/
def isFileE : Entry → Bool
  | .file _ _ => true
  | _ => false

/-- Model of os.path.isdir (follows symbolic links). -/
def isDirE : Entry → Bool
  | .dir _ _ => true
  | _ => false

/-- Model of os.path.islink. -/
def islinkE : Entry → Bool
  | .file l _ => l.isSome
  | .dir l _ => l.isSome
  | .other => false

mutual
/-- Number of nodes of an entry tree; used as fuel bound for the recursive
folder operations. -/
def esize : Entry → Nat
  | .file _ _ => 1
  | .other => 1
  | .dir _ cs => 1 + esizeL cs
/-- Number of nodes of a child listing. -/
def esizeL : List (String × Entry) → Nat
  | [] => 0
  | (_, e) :: t => 1 + esize e + esizeL t
end

/-- Look up a child by name in a raw directory listing. -/
def findChild : List (String × Entry) → String → Option Entry
  | [], _ => none
  | (m, e) :: t, n => if m == n then some e else findChild t n

/-- Replace the child bound to a name, or append it if absent (effect of
creating/truncating the file at that name). -/
def setChild : List (String × Entry) → String → Entry → List (String × Entry)
  | [], n, e => [(n, e)]
  | (m, x) :: t, n, e => if m == n then (n, e) :: t else (m, x) :: setChild t n e

/-- Model of `basename(name) == name`: the string contains no path
separator. -/
def bareName (s : String) : Bool := !(s.data.contains '/')

/-- Resolve a path inside an entry tree (path resolution follows links,
since link nodes hold the target's view). -/
def lookup : Entry → FPath → Option Entry
  | e, [] => some e
  | .dir _ cs, n :: p =>
    match findChild cs n with
    | some e => lookup e p
    | none => none
  | _, _ :: _ => none

/-- Model of isfile(path) against a root tree. -/
def isfileAt (fs : Entry) (p : FPath) : Bool :=
  match lookup fs p with
  | some (.file _ _) => true
  | _ => false

/-- Ordering of directory entries by name, as `entries.sort(key=lambda e:
e.name)` orders them. -/
def byName (a b : String × Entry) : Prop := strLe a.1 b.1 = true

instance : DecidableRel byName := fun a b => inferInstanceAs (Decidable (strLe a.1 b.1 = true))

/-- Model of `entries = list(scandir(...)); entries.sort(key=lambda e:
e.name)` in pathutils. -/
def sortByName (cs : List (String × Entry)) : List (String × Entry) :=
  cs.insertionSort byName

/-- Python exception classes raised by the source. -/
inductive Err where
  | valueError
  | typeError
  | runtimeError
  | fileNotFound
  | isADirectory
  | notADirectory
  | osError
deriving DecidableEq

/-- File handle state: the `_path`/`path` attribute (`none` once cleared). -/
structure FileH where
  path : Option FPath
deriving DecidableEq

/-- Folder handle state: the `_path`/`path` attribute (`none` once
cleared). -/
structure FolderH where
  path : Option FPath
deriving DecidableEq

/-- Search argument of pathutils `find`/`grep`: a literal string or a
compiled pattern, the latter modelled by its matching function (`m name`
models `item.search(name)` succeeding). -/
inductive FindItem where
  | lit (s : String)
  | pat (m : String → Bool)

/-- Model of `exists(path)` for the entry found at a path. -/
def existsO : Option Entry → Bool := Option.isSome

/-- Model of `isfile(path)` for the entry found at a path. -/
def isfileO : Option Entry → Bool
  | some (.file _ _) => true
  | _ => false

/-- Lines of a file's content, modelling Python line iteration. -/
def linesOf (d : String) : List String := d.splitOn "\n"

/-- Does a line/name match a pathutils search item?  Literal items use
Python substring containment (`item in line`), patterns use the modelled
`item.search`. -/
def matchesItem : FindItem → String → Bool
  | .lit s, n => substr s n
  | .pat m, n => m n

/-- Effect of `open(path, "a").close()` on the parent listing: create the
file empty if absent, leave any existing entry untouched (append mode never
truncates).  pathutils `File.__init__` uses this for creation. -/
def openAppendClose (cs : List (String × Entry)) (name : String) :
    List (String × Entry) :=
  match findChild cs name with
  | some _ => cs
  | none => cs ++ [(name, .file none "")]

/-- Effect of `open(path, "w").close()` on the parent listing: create the
file or truncate it to empty (destructive open).  utils `File.__init__`
uses this for creation. -/
def openWriteClose (cs : List (String × Entry)) (name : String) :
    List (String × Entry) :=
  setChild cs name (.file none "")

/-- pathutils `File.__init__(path, ensure_exists)`, acting on the listing of
the parent directory of `path`; `parent` is the parent's path and `name` the
final component.  Returns the updated listing and the constructed handle. -/
def Pathutils.File.init (parent : FPath) (cs : List (String × Entry))
    (name : String) (ensure_exists : Bool) :
    Except Err (List (String × Entry) × FileH) :=
  if name == "" then .error .valueError
  else
    match findChild cs name with
    | none =>
      if ensure_exists then .ok (openAppendClose cs name, ⟨some (parent ++ [name])⟩)
      else .error .valueError
    | some (.file _ _) => .ok (cs, ⟨some (parent ++ [name])⟩)
    | some _ => .error .valueError

/-- utils `File.__init__(path, ensure_exists)`: same checks, but creation is
the destructive `open(path, "w")`. -/
def Utils.File.init (parent : FPath) (cs : List (String × Entry))
    (name : String) (ensure_exists : Bool) :
    Except Err (List (String × Entry) × FileH) :=
  match findChild cs name with
  | none =>
    if ensure_exists then .ok (openWriteClose cs name, ⟨some (parent ++ [name])⟩)
    else .error .valueError
  | some (.file _ _) => .ok (cs, ⟨some (parent ++ [name])⟩)
  | some _ => .error .valueError

/-- pathutils `File.read_bytes(bufsize)`: `fst` is the entry currently at
the handle's path (`none` if nothing is there). -/
def Pathutils.File.read_bytes (fst : Option Entry) (h : FileH) (bufsize : Int) :
    Except Err String :=
  match h.path with
  | none => .error .valueError
  | some _ =>
    match fst with
    | some (.file _ d) => .ok (if bufsize < 0 then d else d.take bufsize.toNat)
    | _ => .error .valueError

/-- pathutils `File.read_text(bufsize, encoding)` (decoding itself is out of
scope; the content is returned as is). -/
def Pathutils.File.read_text (fst : Option Entry) (h : FileH) (bufsize : Int)
    (_encoding : String) : Except Err String :=
  match h.path with
  | none => .error .valueError
  | some _ =>
    match fst with
    | some (.file _ d) => .ok (if bufsize < 0 then d else d.take bufsize.toNat)
    | _ => .error .valueError

/-- pathutils `File.write_bytes(content, append)`: returns the new entry at
the handle's path and the count written.  Note the source checks only that
the path attribute is set, not that the file still exists. -/
def Pathutils.File.write_bytes (fst : Option Entry) (h : FileH)
    (content : String) (append : Bool) : Except Err (Option Entry × Nat) :=
  match h.path with
  | none => .error .valueError
  | some _ =>
    match fst with
    | some (.dir _ _) => .error .isADirectory
    | some .other => .error .osError
    | some (.file l d) =>
      .ok (some (.file l (if append then d ++ content else content)), content.length)
    | none => .ok (some (.file none content), content.length)

/-- pathutils `File.write_text(content, encoding, append)`. -/
def Pathutils.File.write_text (fst : Option Entry) (h : FileH)
    (content : String) (_encoding : String) (append : Bool) :
    Except Err (Option Entry × Nat) :=
  match h.path with
  | none => .error .valueError
  | some _ =>
    match fst with
    | some (.dir _ _) => .error .isADirectory
    | some .other => .error .osError
    | some (.file l d) =>
      .ok (some (.file l (if append then d ++ content else content)), content.length)
    | none => .ok (some (.file none content), content.length)

/-- pathutils `File.__iter__` materialised: the lines of the file. -/
def Pathutils.File.lines (fst : Option Entry) (h : FileH) :
    Except Err (List String) :=
  match h.path with
  | none => .error .valueError
  | some _ =>
    match fst with
    | some (.file _ d) => .ok (linesOf d)
    | _ => .error .valueError

/-- pathutils `File.grep(item)`: lines matching a literal substring or a
pattern; iteration re-reads the file, so the guard is the iterator's. -/
def Pathutils.File.grep (fst : Option Entry) (h : FileH) (item : FindItem) :
    Except Err (List String) :=
  match h.path with
  | none => .error .valueError
  | some _ =>
    match fst with
    | some (.file _ d) => .ok ((linesOf d).filter (matchesItem item))
    | _ => .error .valueError

/-- pathutils `File.delete()`: returns the entry left at the path and the
updated handle.  The guard raises ValueError if the path attribute is
cleared, and equally if the file is no longer there. -/
def Pathutils.File.delete (fst : Option Entry) (h : FileH) :
    Except Err (Option Entry × FileH) :=
  match h.path with
  | none => .error .valueError
  | some _ =>
    match fst with
    | some (.file _ _) => .ok (none, ⟨none⟩)
    | _ => .error .valueError

/-- pathutils `File.copy_to(path)`: returns (source handle, new handle) and
the entry written at the destination (links are dereferenced by copy2). -/
def Pathutils.File.copy_to (fst : Option Entry) (h : FileH) (dest : FPath) :
    Except Err ((FileH × FileH) × Option Entry) :=
  match h.path with
  | none => .error .valueError
  | some p =>
    match fst with
    | some (.file _ d) => .ok ((⟨some p⟩, ⟨some dest⟩), some (.file none d))
    | _ => .error .valueError

/-- pathutils `File.move_to(path)`: the handle transitions to the
destination; returns the updated handle and the entry now at the
destination (the source path is left empty). -/
def Pathutils.File.move_to (fst : Option Entry) (h : FileH) (dest : FPath) :
    Except Err (FileH × Option Entry) :=
  match h.path with
  | none => .error .valueError
  | some _ =>
    match fst with
    | some (.file l d) => .ok (⟨some dest⟩, some (.file l d))
    | _ => .error .valueError

/-- Valid digest names accepted by pathutils `File.hash`. -/
def validHashTypes : List String := ["sha1", "sha224", "sha256", "sha384", "sha512"]

/-- pathutils `File.hash(hash_type)`: `H algo content` models the streamed
digest of the whole content under the named algorithm. -/
def Pathutils.File.hash (H : String → String → String) (fst : Option Entry)
    (h : FileH) (hash_type : String) : Except Err String :=
  match h.path with
  | none => .error .valueError
  | some _ =>
    match fst with
    | some (.file _ d) =>
      if validHashTypes.contains hash_type then .ok (H hash_type d)
      else .error .valueError
    | _ => .error .valueError

/-- utils `File.read()`: silently returns None when the path attribute is
cleared (no exception). -/
def Utils.File.read (fst : Option Entry) (h : FileH) :
    Except Err (Option String) :=
  match h.path with
  | none => .ok none
  | some _ =>
    match fst with
    | some (.file _ d) => .ok (some d)
    | some (.dir _ _) => .error .isADirectory
    | some .other => .error .osError
    | none => .error .fileNotFound

/-- utils `File.write(content)`: raises RuntimeError when the path attribute
is cleared; otherwise a destructive `open(path, "w")`. -/
def Utils.File.write (fst : Option Entry) (h : FileH) (content : String) :
    Except Err (Option Entry × Nat) :=
  match h.path with
  | none => .error .runtimeError
  | some _ =>
    match fst with
    | some (.dir _ _) => .error .isADirectory
    | some .other => .error .osError
    | some (.file l _) => .ok (some (.file l content), content.length)
    | none => .ok (some (.file none content), content.length)

/-- utils `File.delete()`: silently does nothing when the path attribute is
cleared; `remove` is not wrapped, so an already-absent file raises
FileNotFoundError. -/
def Utils.File.delete (fst : Option Entry) (h : FileH) :
    Except Err (Option Entry × FileH) :=
  match h.path with
  | none => .ok (fst, h)
  | some _ =>
    match fst with
    | some (.file _ _) => .ok (none, ⟨none⟩)
    | some (.dir _ _) => .error .isADirectory
    | some .other => .error .osError
    | none => .error .fileNotFound

/-- utils `File.copy_to(path)`: silently returns None on a cleared handle;
otherwise returns the new path and the entry written there. -/
def Utils.File.copy_to (fst : Option Entry) (h : FileH) (dest : FPath) :
    Except Err (Option (FPath × Option Entry)) :=
  match h.path with
  | none => .ok none
  | some _ =>
    match fst with
    | some (.file _ d) => .ok (some (dest, some (.file none d)))
    | none => .error .fileNotFound
    | _ => .error .osError

/-- utils `File.move_to(path)`: guarded by `self.path is not None and
exists(self.path)`, silently returning None otherwise; on success the handle
is refreshed to the destination. -/
def Utils.File.move_to (fst : Option Entry) (h : FileH) (dest : FPath) :
    Except Err (FileH × Option (FPath × Option Entry)) :=
  match h.path with
  | none => .ok (h, none)
  | some _ =>
    if existsO fst then .ok (⟨some dest⟩, some (dest, fst))
    else .ok (h, none)

/-- pathutils `Folder.files()`: scandir, sort by name, keep regular files
(symbolic links to files included, since `entry.is_file()` follows links). -/
def Pathutils.Folder.files (cs : List (String × Entry)) : List (String × Entry) :=
  (sortByName cs).filter (fun p => isFileE p.2)

/-- pathutils `Folder.subfolders()`: scandir, sort by name, keep
directories. -/
def Pathutils.Folder.subfolders (cs : List (String × Entry)) : List (String × Entry) :=
  (sortByName cs).filter (fun p => isDirE p.2)

/-- pathutils `Folder.__iter__`: sorted entries that are files or
directories; anything else is silently skipped. -/
def Pathutils.Folder.iter (cs : List (String × Entry)) : List (String × Entry) :=
  (sortByName cs).filter (fun p => isFileE p.2 || isDirE p.2)

/-- pathutils `Folder.files()` with its handle guard (`self._path is None or
not isdir(self._path)` raises ValueError). -/
def Pathutils.Folder.filesH (h : FolderH) (fst : Option Entry) :
    Except Err (List (String × Entry)) :=
  match h.path with
  | none => .error .valueError
  | some _ =>
    match fst with
    | some (.dir _ cs) => .ok (Pathutils.Folder.files cs)
    | _ => .error .valueError

/-- utils `Folder.files()`: listdir order (no sorting), keep regular
files. -/
def Utils.Folder.files (cs : List (String × Entry)) : List (String × Entry) :=
  cs.filter (fun p => isFileE p.2)

/-- utils `Folder.subfolders()`: listdir order (no sorting), keep
directories. -/
def Utils.Folder.subfolders (cs : List (String × Entry)) : List (String × Entry) :=
  cs.filter (fun p => isDirE p.2)

/-- utils `Folder.__iter__`: returns `self.files()`. -/
def Utils.Folder.iter (cs : List (String × Entry)) : List (String × Entry) :=
  Utils.Folder.files cs

/-- Outcome of pathutils `Folder.delete()` on the entry at the handle's
path: `removed` is the trace of paths passed to `remove`/`rmdir`, in call
order, relative to the folder (`[]` is the folder itself); `remaining` is
the entry left at the folder's path (`none` once fully removed); `ok` is
false when an OSError escaped (a non-empty `rmdir`). -/
structure DelOut where
  removed : List FPath
  remaining : Option Entry
  ok : Bool

/-- Loop of pathutils `Folder.delete()` over the subfolder handles: each
recursive delete either completes or raises, aborting the remainder.
Returns (trace, listing remaining from this loop, completed). -/
def delSubsGo (rec : Entry → DelOut) :
    List (String × Entry) → List FPath × List (String × Entry) × Bool
  | [] => ([], [], true)
  | (n, e) :: t =>
    let r := rec e
    match r.remaining, r.ok with
    | none, true =>
      let (tr, rem, ok) := delSubsGo rec t
      (r.removed.map (n :: ·) ++ tr, rem, ok)
    | none, false => (r.removed.map (n :: ·), t, false)
    | some e', _ => (r.removed.map (n :: ·), (n, e') :: t, false)

/-- pathutils `Folder.delete()` on the entry at the handle's path.  A
symbolic link to a directory is unlinked without recursing.  Otherwise all
listed files are deleted, subfolders are deleted recursively, and `rmdir`
removes the directory — raising OSError (ok = false) if entries of other
kinds were skipped, since the directory is then not empty. -/
def Pathutils.Folder.delete : Nat → Entry → DelOut
  | 0, e => ⟨[], some e, false⟩
  | _+1, .dir (some _) _ => ⟨[[]], none, true⟩
  | fuel+1, .dir none cs =>
    let sorted := sortByName cs
    let fls := sorted.filter (fun p => isFileE p.2)
    let subs := sorted.filter (fun p => isDirE p.2)
    let others := sorted.filter (fun p => !(isFileE p.2 || isDirE p.2))
    let fileTrace := fls.map (fun p => [p.1])
    let (subTrace, subRem, subOk) := delSubsGo (Pathutils.Folder.delete fuel) subs
    if subOk then
      if others.isEmpty then ⟨fileTrace ++ subTrace ++ [[]], none, true⟩
      else ⟨fileTrace ++ subTrace, some (.dir none others), false⟩
    else ⟨fileTrace ++ subTrace, some (.dir none (subRem ++ others)), false⟩
  | _+1, e => ⟨[], some e, false⟩

/-- pathutils `Folder.delete()` at handle level: ValueError on a cleared or
non-directory handle; on success the path attribute is cleared, on an
escaping OSError it is left set. -/
def Pathutils.Folder.deleteH (fuel : Nat) (fst : Option Entry) (h : FolderH) :
    Except Err (DelOut × FolderH) :=
  match h.path with
  | none => .error .valueError
  | some _ =>
    match fst with
    | some (.dir l cs) =>
      let r := Pathutils.Folder.delete fuel (.dir l cs)
      if r.ok then .ok (r, ⟨none⟩) else .error .osError
    | _ => .error .valueError

/-- Outcome of utils `Folder.delete()`: `files` are the paths of the files
whose (by then invalidated) handles populate the returned `deleted_files`
list; `folders` is the returned `deleted_subfolders` list — the source never
appends to it; `remaining` is the entry left at the folder's path; `ok` is
false when an exception escaped (only `rmdir` on a symbolic link). -/
structure UDelOut where
  files : List FPath
  folders : List FPath
  remaining : Option Entry
  ok : Bool

/-- Loop of utils `Folder.delete()` over subfolders: collects returned file
paths, keeps whatever each recursive call left behind, aborts on an
exception. -/
def uDelSubsGo (rec : Entry → UDelOut) :
    List (String × Entry) → List FPath × List (String × Entry) × Bool
  | [] => ([], [], true)
  | (n, e) :: t =>
    let r := rec e
    if r.ok then
      let (fps, rem, ok) := uDelSubsGo rec t
      ((r.files.map (n :: ·)) ++ fps,
        (match r.remaining with
          | some e' => [(n, e')]
          | none => []) ++ rem, ok)
    else
      (r.files.map (n :: ·),
        (match r.remaining with
          | some e' => [(n, e')]
          | none => []) ++ t, false)

/-- utils `Folder.delete()` on the entry at the handle's path.  There is no
symbolic-link guard: listdir follows the link, so the linked directory's
contents are deleted; `rmdir` then raises NotADirectoryError on the link
itself.  `rmdir` runs only when `listdir` reports the directory empty, so
skipped entries make the removal of the directory be skipped silently. -/
def Utils.Folder.delete : Nat → Entry → UDelOut
  | 0, e => ⟨[], [], some e, false⟩
  | fuel+1, .dir lnk cs =>
    let fls := cs.filter (fun p => isFileE p.2)
    let subs := cs.filter (fun p => isDirE p.2)
    let others := cs.filter (fun p => !(isFileE p.2 || isDirE p.2))
    let fpaths := fls.map (fun p => [p.1])
    let (sfps, srem, sok) := uDelSubsGo (Utils.Folder.delete fuel) subs
    if sok then
      if (srem ++ others).isEmpty then
        match lnk with
        | none => ⟨fpaths ++ sfps, [], none, true⟩
        | some t => ⟨fpaths ++ sfps, [], some (.dir (some t) []), false⟩
      else ⟨fpaths ++ sfps, [], some (.dir lnk (srem ++ others)), true⟩
    else ⟨fpaths ++ sfps, [], some (.dir lnk (srem ++ others)), false⟩
  | _+1, e => ⟨[], [], some e, false⟩

/-- utils `Folder.delete()` at handle level: with a cleared path attribute
the body is skipped and the method returns None; in every case the path
attribute is left untouched. -/
def Utils.Folder.deleteH (fuel : Nat) (fst : Option Entry) (h : FolderH) :
    Option UDelOut × FolderH :=
  match h.path with
  | none => (none, h)
  | some _ =>
    match fst with
    | some e => (some (Utils.Folder.delete fuel e), h)
    | none => (none, h)

/-- pathutils `Folder.add_file(name)`: bare-name check, handle guard, then
`File(join(self._path, name), True)` — exclusive creation that leaves an
existing file untouched. -/
def Pathutils.Folder.add_file (h : FolderH) (cs : List (String × Entry))
    (name : String) : Except Err (List (String × Entry) × FileH) :=
  if !bareName name then .error .valueError
  else
    match h.path with
    | none => .error .valueError
    | some p => Pathutils.File.init p cs name true

/-- utils `Folder.add_file(name, content)`: bare-name check, then a
destructive `open(path, "w")` plus optional content write; silently returns
None (listing unchanged) on a cleared handle. -/
def Utils.Folder.add_file (h : FolderH) (cs : List (String × Entry))
    (name : String) (content : Option String) :
    Except Err (List (String × Entry) × Option FPath) :=
  if !bareName name then .error .valueError
  else
    match h.path with
    | none => .ok (cs, none)
    | some p =>
      match findChild cs name with
      | some (.dir _ _) => .error .isADirectory
      | some .other => .error .osError
      | _ =>
        .ok (setChild cs name (.file none (content.getD "")), some (p ++ [name]))

/-- Loop of pathutils `Folder.find(item)` over subfolders: the subfolder's
own name is tested, then the recursion's matches (with the same item) are
appended.  Returns paths relative to the folder, in traversal order. -/
def pFindSubsGo (rec : Entry → List FPath) (check : String → Bool) :
    List (String × Entry) → List FPath
  | [] => []
  | (n, e) :: t =>
    (if check n then [[n]] else []) ++ (rec e).map (n :: ·) ++ pFindSubsGo rec check t

/-- pathutils `Folder.find(item)`: all matches in the subtree, depth-first,
with the same item (hence the same matching mode) at every level. -/
def Pathutils.Folder.find : Nat → FindItem → Entry → List FPath
  | 0, _, _ => []
  | fuel+1, item, .dir _ cs =>
    let fls := (sortByName cs).filter (fun p => isFileE p.2)
    let subs := (sortByName cs).filter (fun p => isDirE p.2)
    (fls.filter (fun p => matchesItem item p.1)).map (fun p => [p.1]) ++
      pFindSubsGo (Pathutils.Folder.find fuel item) (matchesItem item) subs
  | _+1, _, _ => []

/-- Loop of utils `Folder.find` over subfolders: test the subfolder's name,
else take the recursion's first hit. -/
def uFindSubsGo (rec : Entry → Option FPath) (check : String → Bool) :
    List (String × Entry) → Option FPath
  | [] => none
  | (n, e) :: t =>
    if check n then some [n]
    else
      match rec e with
      | some q => some (n :: q)
      | none => uFindSubsGo rec check t

/-- utils `Folder.find(item, use_regex)`: first match, files then
subfolders.  `m item name` models `match(compile(item), name)` succeeding.
The recursive call `subfolder.find(item)` drops `use_regex`, so nested
levels always compare names literally. -/
def Utils.Folder.find (m : String → String → Bool) :
    Nat → Bool → String → Entry → Option FPath
  | 0, _, _, _ => none
  | fuel+1, use_regex, item, .dir _ cs =>
    let check := fun (n : String) => if use_regex then m item n else n == item
    let fls := cs.filter (fun p => isFileE p.2)
    let subs := cs.filter (fun p => isDirE p.2)
    match fls.find? (fun p => check p.1) with
    | some p => some [p.1]
    | none => uFindSubsGo (Utils.Folder.find m fuel false item) check subs
  | _+1, _, _, _ => none

/-- pathutils `File.path` property: None when the attribute is cleared or
the path no longer refers to a regular file. -/
def Pathutils.File.pathProp (fs : Entry) (h : FileH) : Option FPath :=
  match h.path with
  | none => none
  | some p => if isfileAt fs p then some p else none

/-- pathutils `File.name` property (basename of the path). -/
def Pathutils.File.name (fs : Entry) (h : FileH) : Option String :=
  match h.path with
  | none => none
  | some p => if isfileAt fs p then some (p.getLastD "") else none

/-- pathutils `File.linked_file` property: the link target, or None when the
handle is cleared, the path is not a regular file, or it is not a link. -/
def Pathutils.File.linked_file (fs : Entry) (h : FileH) : Option FPath :=
  match h.path with
  | none => none
  | some p =>
    match lookup fs p with
    | some (.file (some t) _) => some t
    | _ => none

/-- pathutils `File.is_symlink` property: False (not an error) when the
handle is cleared or the path is not a regular file. -/
def Pathutils.File.is_symlink (fs : Entry) (h : FileH) : Bool :=
  match h.path with
  | none => false
  | some p =>
    match lookup fs p with
    | some (.file l _) => l.isSome
    | _ => false

/-- pathutils `File.size` property (getsize modelled as content length). -/
def Pathutils.File.size (fs : Entry) (h : FileH) : Option Nat :=
  match h.path with
  | none => none
  | some p =>
    match lookup fs p with
    | some (.file _ d) => some d.length
    | _ => none

/-- pathutils `File.last_access_time` property; `at_` gives getatime. -/
def Pathutils.File.last_access_time (at_ : FPath → Nat) (fs : Entry)
    (h : FileH) : Option Nat :=
  match h.path with
  | none => none
  | some p => if isfileAt fs p then some (at_ p) else none

/-- pathutils `File.last_modified_time` property; `mt` gives getmtime. -/
def Pathutils.File.last_modified_time (mt : FPath → Nat) (fs : Entry)
    (h : FileH) : Option Nat :=
  match h.path with
  | none => none
  | some p => if isfileAt fs p then some (mt p) else none

/-- pathutils `File.last_metadata_modified_time` property; `ct` gives
getctime. -/
def Pathutils.File.last_metadata_modified_time (ct : FPath → Nat) (fs : Entry)
    (h : FileH) : Option Nat :=
  match h.path with
  | none => none
  | some p => if isfileAt fs p then some (ct p) else none

mutual
/-- Trees in which every entry, not looking through directory symlinks, is a
regular file or a directory (possibly itself a symlink).  On such trees the
pathutils recursive delete completes. -/
def cleanB : Entry → Bool
  | .file _ _ => true
  | .other => false
  | .dir (some _) _ => true
  | .dir none cs => cleanL cs
/-- Listing version of `cleanB`. -/
def cleanL : List (String × Entry) → Bool
  | [] => true
  | (_, e) :: t => cleanB e && cleanL t
end

mutual
/-- Trees containing no directory symlink anywhere (entries of other kinds
are allowed).  On such trees the utils recursive delete never raises. -/
def plainB : Entry → Bool
  | .file _ _ => true
  | .other => true
  | .dir (some _) _ => false
  | .dir none cs => plainL cs
/-- Listing version of `plainB`. -/
def plainL : List (String × Entry) → Bool
  | [] => true
  | (_, e) :: t => plainB e && plainL t
end

mutual
/-- The paths (relative to the entry, `[]` being the entry itself) that a
correct recursive delete removes: every node of the subtree, except that a
symbolic link contributes only the link itself, never anything beneath the
linked target. -/
def ownPaths : Entry → List FPath
  | .dir none cs => ownPathsL cs ++ [[]]
  | _ => [[]]
/-- Listing version of `ownPaths`: own paths of each child, prefixed with
the child's name. -/
def ownPathsL : List (String × Entry) → List FPath
  | [] => []
  | (n, e) :: t => (ownPaths e).map (n :: ·) ++ ownPathsL t
end

/-- Concrete model of the compiled regular expression "a.*" used by the find
counterexample: `regexMatchAStar pat name` models `match(compile(pat),
name)` succeeding, which for the pattern "a.*" holds exactly when the name
starts with the character a. -/
def regexMatchAStar (pat name : String) : Bool :=
  pat == "a.*" &&
    (match name.data with
      | c :: _ => c == 'a'
      | [] => false)

theorem lexLe_cons_iff (a b : Char) (as bs : List Char) :
    lexLe (a :: as) (b :: bs) = true ↔
      (a.toNat < b.toNat ∨ (a.toNat = b.toNat ∧ lexLe as bs = true)) := by
  simp only [lexLe]
  rcases Nat.lt_trichotomy a.toNat b.toNat with h | h | h
  · simp [h]
  · simp [h]
  · have h1 : ¬ a.toNat < b.toNat := by omega
    have h3 : ¬ a.toNat = b.toNat := by omega
    simp [h1, h, h3]

theorem lexLe_total : ∀ as bs, lexLe as bs = true ∨ lexLe bs as = true := by
  intro as
  induction as with
  | nil => intro bs; left; rfl
  | cons a as ih =>
    intro bs
    cases bs with
    | nil => right; rfl
    | cons b bs =>
      rw [lexLe_cons_iff, lexLe_cons_iff]
      rcases Nat.lt_trichotomy a.toNat b.toNat with h | h | h
      · left; exact Or.inl h
      · rcases ih bs with h2 | h2
        · left; exact Or.inr ⟨h, h2⟩
        · right; exact Or.inr ⟨h.symm, h2⟩
      · right; exact Or.inl h

theorem lexLe_trans : ∀ as bs cs, lexLe as bs = true → lexLe bs cs = true →
    lexLe as cs = true := by
  intro as
  induction as with
  | nil => intro bs cs _ _; rfl
  | cons a as ih =>
    intro bs cs h1 h2
    cases bs with
    | nil => simp [lexLe] at h1
    | cons b bs =>
      cases cs with
      | nil => simp [lexLe] at h2
      | cons c cs =>
        rw [lexLe_cons_iff] at h1 h2 ⊢
        rcases h1 with h1 | ⟨h1e, h1r⟩
        · rcases h2 with h2 | ⟨h2e, h2r⟩
          · exact Or.inl (by omega)
          · exact Or.inl (by omega)
        · rcases h2 with h2 | ⟨h2e, h2r⟩
          · exact Or.inl (by omega)
          · exact Or.inr ⟨by omega, ih bs cs h1r h2r⟩

instance : IsTotal (String × Entry) byName :=
  ⟨fun a b => lexLe_total a.1.data b.1.data⟩

instance : IsTrans (String × Entry) byName :=
  ⟨fun a b c h1 h2 => lexLe_trans a.1.data b.1.data c.1.data h1 h2⟩

theorem sortByName_perm (cs : List (String × Entry)) :
    List.Perm (sortByName cs) cs :=
  List.perm_insertionSort byName cs

theorem sortByName_sorted (cs : List (String × Entry)) :
    (sortByName cs).Pairwise byName :=
  List.sorted_insertionSort byName cs

theorem mem_sortByName {q : String × Entry} {cs : List (String × Entry)} :
    q ∈ sortByName cs ↔ q ∈ cs :=
  (sortByName_perm cs).mem_iff

theorem esize_pos : ∀ e, 1 ≤ esize e := by
  intro e
  cases e <;> simp [esize]

theorem esize_lt_of_mem : ∀ {cs : List (String × Entry)} {q : String × Entry},
    q ∈ cs → esize q.2 < 1 + esizeL cs := by
  intro cs
  induction cs with
  | nil => intro q h; cases h
  | cons hd t ih =>
    intro q h
    obtain ⟨m, x⟩ := hd
    rcases List.mem_cons.mp h with h | h
    · subst h; simp only [esizeL]; omega
    · have := ih h; simp only [esizeL]; omega

theorem cleanL_of_mem : ∀ {cs : List (String × Entry)} {q : String × Entry},
    cleanL cs = true → q ∈ cs → cleanB q.2 = true := by
  intro cs
  induction cs with
  | nil => intro q _ h; cases h
  | cons hd t ih =>
    intro q hc h
    obtain ⟨m, x⟩ := hd
    simp only [cleanL, Bool.and_eq_true] at hc
    rcases List.mem_cons.mp h with h | h
    · subst h; exact hc.1
    · exact ih hc.2 h

theorem plainL_of_mem : ∀ {cs : List (String × Entry)} {q : String × Entry},
    plainL cs = true → q ∈ cs → plainB q.2 = true := by
  intro cs
  induction cs with
  | nil => intro q _ h; cases h
  | cons hd t ih =>
    intro q hc h
    obtain ⟨m, x⟩ := hd
    simp only [plainL, Bool.and_eq_true] at hc
    rcases List.mem_cons.mp h with h | h
    · subst h; exact hc.1
    · exact ih hc.2 h

theorem clean_fd : ∀ {e}, cleanB e = true → (isFileE e || isDirE e) = true := by
  intro e h
  cases e with
  | file l d => rfl
  | other => simp [cleanB] at h
  | dir l cs => simp [isFileE, isDirE]

theorem ownPathsL_append (l₁ l₂ : List (String × Entry)) :
    ownPathsL (l₁ ++ l₂) = ownPathsL l₁ ++ ownPathsL l₂ := by
  induction l₁ with
  | nil => rfl
  | cons hd t ih => obtain ⟨n, e⟩ := hd; simp [ownPathsL, ih]

theorem ownPathsL_files : ∀ {l : List (String × Entry)},
    (∀ p ∈ l, isFileE p.2 = true) → ownPathsL l = l.map (fun p => [p.1]) := by
  intro l
  induction l with
  | nil => intro _; rfl
  | cons hd t ih =>
    intro h
    obtain ⟨n, e⟩ := hd
    have he : isFileE e = true := h (n, e) (List.mem_cons_self _ _)
    have ht := fun p hp => h p (List.mem_cons_of_mem _ hp)
    cases e with
    | file l' d => simp [ownPathsL, ownPaths, ih ht]
    | dir l' cs => simp [isFileE] at he
    | other => simp [isFileE] at he

theorem ownPathsL_flatMap (l : List (String × Entry)) :
    ownPathsL l = l.flatMap (fun p => (ownPaths p.2).map (p.1 :: ·)) := by
  induction l with
  | nil => rfl
  | cons hd t ih => obtain ⟨n, e⟩ := hd; simp [ownPathsL, ih]

theorem ownPathsL_perm {l₁ l₂ : List (String × Entry)} (h : List.Perm l₁ l₂) :
    List.Perm (ownPathsL l₁) (ownPathsL l₂) := by
  rw [ownPathsL_flatMap, ownPathsL_flatMap]
  exact h.flatMap_right _

theorem delSubsGo_spec (f : Entry → DelOut) :
    ∀ l : List (String × Entry),
    (∀ p ∈ l, (f p.2).remaining = none ∧ (f p.2).ok = true ∧
      List.Perm (f p.2).removed (ownPaths p.2)) →
    List.Perm (delSubsGo f l).1 (ownPathsL l) ∧
      (delSubsGo f l).2.1 = [] ∧ (delSubsGo f l).2.2 = true := by
  intro l
  induction l with
  | nil => intro _; exact ⟨List.Perm.refl _, rfl, rfl⟩
  | cons hd t ih =>
    intro hall
    obtain ⟨n, e⟩ := hd
    obtain ⟨hrem, hok, hperm⟩ := hall (n, e) (List.mem_cons_self _ _)
    obtain ⟨ihp, ihrem, ihok⟩ := ih (fun p hp => hall p (List.mem_cons_of_mem _ hp))
    rcases hgo : delSubsGo f t with ⟨tr, rem, ok⟩
    rw [hgo] at ihp ihrem ihok
    simp only at ihp ihrem ihok
    subst ihrem; subst ihok
    simp only [delSubsGo, hrem, hok, hgo, ownPathsL]
    exact ⟨(hperm.map _).append ihp, by trivial, by trivial⟩

theorem pathutils_delete_clean :
    ∀ fuel e, esize e ≤ fuel → cleanB e = true → isDirE e = true →
    List.Perm (Pathutils.Folder.delete fuel e).removed (ownPaths e) ∧
      (Pathutils.Folder.delete fuel e).remaining = none ∧
      (Pathutils.Folder.delete fuel e).ok = true := by
  intro fuel
  induction fuel with
  | zero => intro e hsz _ _; have := esize_pos e; omega
  | succ fuel ih =>
    intro e hsz hclean hdir
    cases e with
    | file l d => simp [isDirE] at hdir
    | other => simp [isDirE] at hdir
    | dir l cs =>
      cases l with
      | some t =>
        refine ⟨?_, rfl, rfl⟩
        have h1 : Pathutils.Folder.delete (fuel+1) (.dir (some t) cs) = ⟨[[]], none, true⟩ := rfl
        have h2 : ownPaths (.dir (some t) cs) = [[]] := rfl
        rw [h1, h2]
      | none =>
        have hcl : cleanL cs = true := hclean
        have hsubs : ∀ p ∈ (sortByName cs).filter (fun p => isDirE p.2),
            (Pathutils.Folder.delete fuel p.2).remaining = none ∧
            (Pathutils.Folder.delete fuel p.2).ok = true ∧
            List.Perm (Pathutils.Folder.delete fuel p.2).removed (ownPaths p.2) := by
          intro p hp
          have hmem := List.mem_filter.mp hp
          have hpd : isDirE p.2 = true := hmem.2
          have hpcs : p ∈ cs := mem_sortByName.mp hmem.1
          have hpc : cleanB p.2 = true := cleanL_of_mem hcl hpcs
          have hpsz : esize p.2 ≤ fuel := by
            have h1 := esize_lt_of_mem hpcs
            have h2 : esize (Entry.dir none cs) = 1 + esizeL cs := rfl
            omega
          obtain ⟨a, b, c⟩ := ih p.2 hpsz hpc hpd
          exact ⟨b, c, a⟩
        obtain ⟨hgoP, hgoRem, hgoOk⟩ :=
          delSubsGo_spec (Pathutils.Folder.delete fuel) _ hsubs
        rcases hgo : delSubsGo (Pathutils.Folder.delete fuel)
            ((sortByName cs).filter (fun p => isDirE p.2)) with ⟨subTrace, subRem, subOk⟩
        rw [hgo] at hgoP hgoRem hgoOk
        simp only at hgoP hgoRem hgoOk
        subst hgoRem; subst hgoOk
        have hoth : (sortByName cs).filter (fun p => !(isFileE p.2 || isDirE p.2)) = [] := by
          rw [List.filter_eq_nil_iff]
          intro p hp
          have hc : cleanB p.2 = true := cleanL_of_mem hcl (mem_sortByName.mp hp)
          simp [clean_fd hc]
        have hunfold : Pathutils.Folder.delete (fuel+1) (.dir none cs) =
            ⟨((sortByName cs).filter (fun p => isFileE p.2)).map (fun p => [p.1]) ++
              subTrace ++ [[]], none, true⟩ := by
          simp only [Pathutils.Folder.delete, hgo, hoth]
          rfl
        rw [hunfold]
        refine ⟨?_, rfl, rfl⟩
        have hfl : ∀ p ∈ (sortByName cs).filter (fun p => isFileE p.2), isFileE p.2 = true :=
          fun p hp => (List.mem_filter.mp hp).2
        have e1 : ((sortByName cs).filter (fun p => isFileE p.2)).map (fun p => [p.1]) =
            ownPathsL ((sortByName cs).filter (fun p => isFileE p.2)) :=
          (ownPathsL_files hfl).symm
        have e2 : ownPaths (.dir none cs) = ownPathsL cs ++ [[]] := rfl
        rw [e1, e2]
        have hfd : (sortByName cs).filter (fun p => isDirE p.2) =
            (sortByName cs).filter (fun p => !(isFileE p.2)) := by
          apply List.filter_congr
          intro p hp
          have hc : cleanB p.2 = true := cleanL_of_mem hcl (mem_sortByName.mp hp)
          obtain ⟨nm, pe⟩ := p
          cases pe with
          | file l d => simp [isFileE, isDirE]
          | dir l cs2 => simp [isFileE, isDirE]
          | other => simp [cleanB] at hc
        have hpart : List.Perm ((sortByName cs).filter (fun p => isFileE p.2) ++
            (sortByName cs).filter (fun p => isDirE p.2)) cs := by
          rw [hfd]
          exact (List.filter_append_perm _ _).trans (sortByName_perm cs)
        have hfront : List.Perm
            (ownPathsL ((sortByName cs).filter (fun p => isFileE p.2)) ++ subTrace)
            (ownPathsL cs) := by
          refine ((List.Perm.refl (ownPathsL _)).append hgoP).trans ?_
          rw [← ownPathsL_append]
          exact ownPathsL_perm hpart
        exact hfront.append_right [[]]

theorem uDelSubsGo_ok (f : Entry → UDelOut) :
    ∀ l : List (String × Entry), (∀ p ∈ l, (f p.2).ok = true) →
    (uDelSubsGo f l).2.2 = true := by
  intro l
  induction l with
  | nil => intro _; rfl
  | cons hd t ih =>
    intro hall
    obtain ⟨n, e⟩ := hd
    have hok := hall (n, e) (List.mem_cons_self _ _)
    have iht := ih (fun p hp => hall p (List.mem_cons_of_mem _ hp))
    rcases hgo : uDelSubsGo f t with ⟨fps, rem, ok⟩
    rw [hgo] at iht
    simp only at iht
    subst iht
    simp [uDelSubsGo, hok, hgo]

theorem utils_delete_ok : ∀ fuel e, esize e ≤ fuel → plainB e = true → isDirE e = true →
    (Utils.Folder.delete fuel e).ok = true := by
  intro fuel
  induction fuel with
  | zero => intro e hsz _ _; have := esize_pos e; omega
  | succ fuel ih =>
    intro e hsz hp hd
    cases e with
    | file l d => simp [isDirE] at hd
    | other => simp [isDirE] at hd
    | dir l cs =>
      cases l with
      | some t => simp [plainB] at hp
      | none =>
        have hpl : plainL cs = true := hp
        have hsub : ∀ p ∈ cs.filter (fun p => isDirE p.2),
            (Utils.Folder.delete fuel p.2).ok = true := by
          intro p hmem
          have h2 := List.mem_filter.mp hmem
          have hpsz : esize p.2 ≤ fuel := by
            have h1 := esize_lt_of_mem h2.1
            have h3 : esize (Entry.dir none cs) = 1 + esizeL cs := rfl
            omega
          exact ih p.2 hpsz (plainL_of_mem hpl h2.1) h2.2
        have hok := uDelSubsGo_ok (Utils.Folder.delete fuel) _ hsub
        rcases hgo : uDelSubsGo (Utils.Folder.delete fuel)
            (cs.filter (fun p => isDirE p.2)) with ⟨fps, rem, ok⟩
        rw [hgo] at hok
        simp only at hok
        subst hok
        simp only [Utils.Folder.delete, hgo]
        split
        · split
          · rfl
          · rfl
        · simp_all

theorem findChild_append_self {cs : List (String × Entry)} {name : String} (e : Entry)
    (h : findChild cs name = none) :
    findChild (cs ++ [(name, e)]) name = some e := by
  induction cs with
  | nil => simp [findChild]
  | cons hd t ih =>
    obtain ⟨m, x⟩ := hd
    cases hmn : (m == name) with
    | true => simp [findChild, hmn] at h
    | false =>
      simp only [findChild, hmn, List.cons_append, Bool.false_eq_true, if_false] at h ⊢
      exact ih h

/-- C1 (counterexample): the claim fails as stated over both iterations.  In
utils, `Folder.delete` on a handle that is a symbolic link to a directory
recurses through the link: it removes the linked directory's entry "a" and
leaves the link itself in place (the final rmdir on the link raises).  In
pathutils, a non-link directory containing an entry of another kind is not
removed: delete raises at rmdir and leaves the directory with that entry. -/
theorem claim_C1_counterexample :
    (Utils.Folder.delete 2 (.dir (some ["shared"]) [("a", .file none "x")])).files =
      [["a"]] ∧
    (Utils.Folder.delete 2 (.dir (some ["shared"]) [("a", .file none "x")])).remaining =
      some (.dir (some ["shared"]) []) ∧
    (Utils.Folder.delete 2 (.dir (some ["shared"]) [("a", .file none "x")])).ok = false ∧
    (Pathutils.Folder.delete 2 (.dir none [("bad", .other)])).remaining =
      some (.dir none [("bad", .other)]) ∧
    (Pathutils.Folder.delete 2 (.dir none [("bad", .other)])).ok = false :=
  ⟨rfl, rfl, rfl, rfl, rfl⟩

/-- C1 (amended): in pathutils, `Folder.delete` on a handle that is itself a
symbolic link to a directory removes exactly the link (`[[]]`) and never
recurses; and on a non-link directory whose subtree — not crossing symbolic
links — consists only of regular files and directories, it removes exactly
the subtree's own entries (`ownPaths`: a symlinked subfolder contributes
only the link itself, nothing beneath its target) and finally the directory
itself, leaving nothing behind. -/
theorem claim_C1_amended :
    (∀ fuel t cs, Pathutils.Folder.delete (fuel+1) (.dir (some t) cs) = ⟨[[]], none, true⟩) ∧
    (∀ fuel e, esize e ≤ fuel → cleanB e = true → isDirE e = true →
      List.Perm (Pathutils.Folder.delete fuel e).removed (ownPaths e) ∧
        (Pathutils.Folder.delete fuel e).remaining = none ∧
        (Pathutils.Folder.delete fuel e).ok = true) :=
  ⟨fun _ _ _ => rfl, pathutils_delete_clean⟩

/-- C1 (witness): concrete instantiation on a tree holding a file, a plain
subfolder, and a symlinked subfolder with a file beneath its target. -/
theorem claim_C1_witness :
    List.Perm (Pathutils.Folder.delete 11 (.dir none
        [("a", .file none ""), ("l", .dir (some ["tgt"]) [("secret", .file none "s")]),
          ("d", .dir none [("f", .file none "")])])).removed
      (ownPaths (.dir none
        [("a", .file none ""), ("l", .dir (some ["tgt"]) [("secret", .file none "s")]),
          ("d", .dir none [("f", .file none "")])])) ∧
    (Pathutils.Folder.delete 11 (.dir none
        [("a", .file none ""), ("l", .dir (some ["tgt"]) [("secret", .file none "s")]),
          ("d", .dir none [("f", .file none "")])])).remaining = none ∧
    (Pathutils.Folder.delete 11 (.dir none
        [("a", .file none ""), ("l", .dir (some ["tgt"]) [("secret", .file none "s")]),
          ("d", .dir none [("f", .file none "")])])).ok = true ∧
    Pathutils.Folder.delete 1 (.dir (some ["tgt"]) [("x", .file none "")]) =
      ⟨[[]], none, true⟩ := by
  obtain ⟨h1, h2, h3⟩ := claim_C1_amended.2 11
    (.dir none [("a", .file none ""), ("l", .dir (some ["tgt"]) [("secret", .file none "s")]),
      ("d", .dir none [("f", .file none "")])]) (by decide) (by decide) rfl
  exact ⟨h1, h2, h3, claim_C1_amended.1 0 ["tgt"] [("x", .file none "")]⟩

/-- C2: when a regular file already exists at the target path, constructing
a handle with ensure_exists (createIfMissing) true leaves the parent listing
— hence the file's content — completely unchanged, in both iterations: the
existence check precedes any open, and pathutils creation uses append mode. -/
theorem claim_C2 (parent : FPath) (cs : List (String × Entry)) (name : String)
    (l : Option FPath) (d : String) (hne : (name == "") = false)
    (hex : findChild cs name = some (.file l d)) :
    Pathutils.File.init parent cs name true = .ok (cs, ⟨some (parent ++ [name])⟩) ∧
    Utils.File.init parent cs name true = .ok (cs, ⟨some (parent ++ [name])⟩) := by
  constructor
  · simp [Pathutils.File.init, hne, hex]
  · simp [Utils.File.init, hex]

/-- C2 (witness): a file with content "hello" survives handle construction
with ensure_exists true. -/
theorem claim_C2_witness :
    Pathutils.File.init ["d"] [("f", .file none "hello")] "f" true =
      .ok ([("f", .file none "hello")], ⟨some ["d", "f"]⟩) ∧
    Utils.File.init ["d"] [("f", .file none "hello")] "f" true =
      .ok ([("f", .file none "hello")], ⟨some ["d", "f"]⟩) :=
  claim_C2 ["d"] [("f", .file none "hello")] "f" none "hello" (by decide) rfl

/-- C3 (counterexample): in utils, `Folder.delete` on a valid handle over an
empty directory succeeds, removes the directory and returns empty result
lists — but the handle's path attribute is left set (`some ["d"]`), not
cleared, so the handle is not invalidated as the claim requires. -/
theorem claim_C3_counterexample :
    (Utils.Folder.deleteH 1 (some (.dir none [])) ⟨some ["d"]⟩).1 =
      some ⟨[], [], none, true⟩ ∧
    (Utils.Folder.deleteH 1 (some (.dir none [])) ⟨some ["d"]⟩).2 = ⟨some ["d"]⟩ :=
  ⟨rfl, rfl⟩

/-- C3 (amended): on a valid handle over an already-empty directory, utils
delete succeeds, removes the directory and returns the empty file and folder
lists, but leaves the handle's path attribute unchanged; pathutils delete
removes the directory and clears the handle's path (invalidating it) but
returns no result list (only the removal trace is observable). -/
theorem claim_C3_amended (fuel : Nat) (h : FolderH) (p : FPath)
    (hp : h.path = some p) :
    Utils.Folder.deleteH (fuel+1) (some (.dir none [])) h =
      (some ⟨[], [], none, true⟩, h) ∧
    Pathutils.Folder.deleteH (fuel+1) (some (.dir none [])) h =
      .ok (⟨[[]], none, true⟩, ⟨none⟩) := by
  obtain ⟨hpath⟩ := h
  simp only at hp
  subst hp
  exact ⟨rfl, rfl⟩

/-- C3 (witness): the amended statement at a concrete handle. -/
theorem claim_C3_witness :
    Utils.Folder.deleteH 1 (some (.dir none [])) ⟨some ["d"]⟩ =
      (some ⟨[], [], none, true⟩, ⟨some ["d"]⟩) ∧
    Pathutils.Folder.deleteH 1 (some (.dir none [])) ⟨some ["d"]⟩ =
      .ok (⟨[[]], none, true⟩, ⟨none⟩) :=
  claim_C3_amended 0 ⟨some ["d"]⟩ ["d"] rfl

/-- C4 (counterexample): utils `File.read()` on an invalidated handle does
not fail with any error — it silently returns None — refuting the claim that
every operation on an Invalid handle fails with InvalidState. -/
theorem claim_C4_counterexample :
    Utils.File.read (some (.file none "x")) ⟨none⟩ = .ok none := rfl

/-- C4 (amended): on a handle whose path attribute is cleared, every
modelled pathutils operation raises (ValueError, the InvalidState signal),
and utils `File.write` raises RuntimeError; but utils read / delete /
copy_to / move_to and the folder delete silently no-op, returning None.  In
all cases the handle stays invalid: no operation ever restores a path. -/
theorem claim_C4_amended :
    (∀ fst b, Pathutils.File.read_bytes fst ⟨none⟩ b = .error .valueError) ∧
    (∀ fst b enc, Pathutils.File.read_text fst ⟨none⟩ b enc = .error .valueError) ∧
    (∀ fst c a, Pathutils.File.write_bytes fst ⟨none⟩ c a = .error .valueError) ∧
    (∀ fst c enc a, Pathutils.File.write_text fst ⟨none⟩ c enc a = .error .valueError) ∧
    (∀ fst, Pathutils.File.lines fst ⟨none⟩ = .error .valueError) ∧
    (∀ fst item, Pathutils.File.grep fst ⟨none⟩ item = .error .valueError) ∧
    (∀ fst, Pathutils.File.delete fst ⟨none⟩ = .error .valueError) ∧
    (∀ fst dst, Pathutils.File.copy_to fst ⟨none⟩ dst = .error .valueError) ∧
    (∀ fst dst, Pathutils.File.move_to fst ⟨none⟩ dst = .error .valueError) ∧
    (∀ H fst algo, Pathutils.File.hash H fst ⟨none⟩ algo = .error .valueError) ∧
    (∀ fst, Pathutils.Folder.filesH ⟨none⟩ fst = .error .valueError) ∧
    (∀ fuel fst, Pathutils.Folder.deleteH fuel fst ⟨none⟩ = .error .valueError) ∧
    (∀ cs name, Pathutils.Folder.add_file ⟨none⟩ cs name = .error .valueError) ∧
    (∀ fst c, Utils.File.write fst ⟨none⟩ c = .error .runtimeError) ∧
    (∀ fst, Utils.File.read fst ⟨none⟩ = .ok none) ∧
    (∀ fst, Utils.File.delete fst ⟨none⟩ = .ok (fst, ⟨none⟩)) ∧
    (∀ fst dst, Utils.File.copy_to fst ⟨none⟩ dst = .ok none) ∧
    (∀ fst dst, Utils.File.move_to fst ⟨none⟩ dst = .ok (⟨none⟩, none)) ∧
    (∀ fuel fst, Utils.Folder.deleteH fuel fst ⟨none⟩ = (none, ⟨none⟩)) ∧
    (∀ cs name c, Utils.Folder.add_file ⟨none⟩ cs name c =
      if bareName name then .ok (cs, none) else .error .valueError) := by
  refine ⟨fun _ _ => rfl, fun _ _ _ => rfl, fun _ _ _ => rfl, fun _ _ _ _ => rfl,
    fun _ => rfl, fun _ _ => rfl, fun _ => rfl, fun _ _ => rfl, fun _ _ => rfl,
    fun _ _ _ => rfl, fun _ => rfl, fun _ _ => rfl, ?_, fun _ _ => rfl, fun _ => rfl,
    fun _ => rfl, fun _ _ => rfl, fun _ _ => rfl, fun _ _ => rfl, ?_⟩
  · intro cs name
    unfold Pathutils.Folder.add_file
    split
    · rfl
    · rfl
  · intro cs name c
    cases hb : bareName name
    · simp [Utils.Folder.add_file, hb]
    · simp [Utils.Folder.add_file, hb]

/-- C5 (counterexample): utils enumeration yields the raw listdir order,
which need not be sorted: a directory listed as b, a is enumerated as
["b", "a"], violating lexicographic order. -/
theorem claim_C5_counterexample :
    (Utils.Folder.files [("b", .file none "x"), ("a", .file none "y")]).map
      (fun p => p.1) = ["b", "a"] ∧
    strLe "b" "a" = false ∧
    ¬ List.Pairwise (fun a b => strLe a b = true)
      ((Utils.Folder.files [("b", .file none "x"), ("a", .file none "y")]).map
        (fun p => p.1)) := by
  refine ⟨rfl, rfl, ?_⟩
  intro hp
  have := List.rel_of_pairwise_cons hp (List.mem_singleton.mpr rfl)
  exact absurd this (by decide)

/-- C5 (amended): pathutils enumerations (files, subfolders, the iterator)
are always sorted lexicographically by name; utils enumerations return the
entries in raw listdir order, filtered but not sorted. -/
theorem claim_C5_amended (cs : List (String × Entry)) :
    List.Pairwise (fun a b => strLe a b = true)
      ((Pathutils.Folder.files cs).map (fun p => p.1)) ∧
    List.Pairwise (fun a b => strLe a b = true)
      ((Pathutils.Folder.subfolders cs).map (fun p => p.1)) ∧
    List.Pairwise (fun a b => strLe a b = true)
      ((Pathutils.Folder.iter cs).map (fun p => p.1)) ∧
    Utils.Folder.files cs = cs.filter (fun p => isFileE p.2) ∧
    Utils.Folder.subfolders cs = cs.filter (fun p => isDirE p.2) ∧
    Utils.Folder.iter cs = cs.filter (fun p => isFileE p.2) := by
  have hs := sortByName_sorted cs
  have key : ∀ f : (String × Entry) → Bool,
      List.Pairwise (fun a b => strLe a b = true)
        (((sortByName cs).filter f).map (fun p => p.1)) := by
    intro f
    rw [List.pairwise_map]
    exact hs.sublist (List.filter_sublist _)
  exact ⟨key _, key _, key _, rfl, rfl, rfl⟩

/-- C6: the claim is right and the code is wrong.  pathutils `File.delete`
on a valid handle whose file was already removed raises ValueError (the
guard `not isfile` fires before the FileNotFoundError tolerance can apply,
although the source's own comment documents that an already-removed file
should not raise), and utils `File.delete` propagates FileNotFoundError.
The rest of the claim holds: a successful delete clears the path, and
subsequent operations then fail. -/
theorem claim_C6 :
    Pathutils.File.delete none ⟨some ["f"]⟩ = .error .valueError ∧
    Utils.File.delete none ⟨some ["f"]⟩ = .error .fileNotFound ∧
    Pathutils.File.delete (some (.file none "x")) ⟨some ["f"]⟩ = .ok (none, ⟨none⟩) ∧
    Pathutils.File.read_bytes (some (.file none "x")) ⟨none⟩ (-1) = .error .valueError :=
  ⟨rfl, rfl, rfl, rfl⟩

/-- C7 (counterexample): utils `Folder.add_file` on a name that already
exists truncates the file: content "x" is replaced by the empty string, so
the existing file's content is not left unchanged. -/
theorem claim_C7_counterexample :
    Utils.Folder.add_file ⟨some ["d"]⟩ [("a", .file none "x")] "a" none =
      .ok ([("a", .file none "")], some ["d", "a"]) ∧
    ("" : String) ≠ "x" :=
  ⟨rfl, by decide⟩

/-- C7 (amended): pathutils `Folder.add_file` is idempotent and
non-destructive: on a valid handle and bare name it returns a handle to the
file, leaving the listing (hence any existing content) unchanged when the
file exists, appending an empty file when absent; a second application is a
no-op.  utils `add_file` instead truncates an existing file. -/
theorem claim_C7_amended (h : FolderH) (p : FPath) (cs : List (String × Entry))
    (name : String) (hp : h.path = some p) (hb : bareName name = true)
    (hne : (name == "") = false) :
    (∀ l d, findChild cs name = some (.file l d) →
      Pathutils.Folder.add_file h cs name = .ok (cs, ⟨some (p ++ [name])⟩)) ∧
    (findChild cs name = none →
      Pathutils.Folder.add_file h cs name =
        .ok (cs ++ [(name, .file none "")], ⟨some (p ++ [name])⟩)) ∧
    (∀ cs2 h2, Pathutils.Folder.add_file h cs name = .ok (cs2, h2) →
      Pathutils.Folder.add_file h cs2 name = .ok (cs2, h2)) := by
  obtain ⟨hpath⟩ := h
  simp only at hp
  subst hp
  refine ⟨?_, ?_, ?_⟩
  · intro l d hex
    simp [Pathutils.Folder.add_file, hb, Pathutils.File.init, hne, hex]
  · intro hex
    simp [Pathutils.Folder.add_file, hb, Pathutils.File.init, hne, hex, openAppendClose]
  · intro cs2 h2 hok
    rcases hfc : findChild cs name with _ | e
    · have h1 : Pathutils.Folder.add_file ⟨some p⟩ cs name =
          .ok (cs ++ [(name, .file none "")], ⟨some (p ++ [name])⟩) := by
        simp [Pathutils.Folder.add_file, hb, Pathutils.File.init, hne, hfc, openAppendClose]
      rw [h1] at hok
      simp only [Except.ok.injEq, Prod.mk.injEq] at hok
      obtain ⟨hc, hh⟩ := hok
      subst hc
      subst hh
      have hfc2 : findChild (cs ++ [(name, .file none "")]) name =
          some (.file none "") := findChild_append_self _ hfc
      simp [Pathutils.Folder.add_file, hb, Pathutils.File.init, hne, hfc2]
    · cases e with
      | file l d =>
        have h1 : Pathutils.Folder.add_file ⟨some p⟩ cs name =
            .ok (cs, ⟨some (p ++ [name])⟩) := by
          simp [Pathutils.Folder.add_file, hb, Pathutils.File.init, hne, hfc]
        rw [h1] at hok
        simp only [Except.ok.injEq, Prod.mk.injEq] at hok
        obtain ⟨hc, hh⟩ := hok
        subst hc
        subst hh
        exact h1
      | dir l cs3 =>
        have h1 : Pathutils.Folder.add_file ⟨some p⟩ cs name = .error .valueError := by
          simp [Pathutils.Folder.add_file, hb, Pathutils.File.init, hne, hfc]
        rw [h1] at hok
        simp at hok
      | other =>
        have h1 : Pathutils.Folder.add_file ⟨some p⟩ cs name = .error .valueError := by
          simp [Pathutils.Folder.add_file, hb, Pathutils.File.init, hne, hfc]
        rw [h1] at hok
        simp at hok

/-- C7 (witness): adding an existing file "a" changes nothing and returns a
handle to it; adding to an empty listing creates the empty file. -/
theorem claim_C7_witness :
    Pathutils.Folder.add_file ⟨some ["d"]⟩ [("a", .file none "x")] "a" =
      .ok ([("a", .file none "x")], ⟨some ["d", "a"]⟩) ∧
    Pathutils.Folder.add_file ⟨some ["d"]⟩ [] "a" =
      .ok ([("a", .file none "")], ⟨some ["d", "a"]⟩) := by
  have h1 := claim_C7_amended ⟨some ["d"]⟩ ["d"] [("a", .file none "x")] "a" rfl
    (by decide) (by decide)
  have h2 := claim_C7_amended ⟨some ["d"]⟩ ["d"] [] "a" rfl (by decide) (by decide)
  exact ⟨h1.1 none "x" rfl, h2.2.1 rfl⟩

/-- C8: the claim is right and the utils code is wrong.  utils
`Folder.find` drops `use_regex` in its recursive call, so a top-level
pattern-mode search degrades to literal comparison in nested subfolders: the
pattern "a.*" matches the nested file name "abc", yet the search returns no
match.  pathutils `find` passes the same item down unchanged and finds it. -/
theorem claim_C8 :
    Utils.Folder.find regexMatchAStar 3 true "a.*"
      (.dir none [("sub", .dir none [("abc", .file none "")])]) = none ∧
    regexMatchAStar "a.*" "abc" = true ∧
    Pathutils.Folder.find 3 (.pat (fun n => regexMatchAStar "a.*" n))
      (.dir none [("sub", .dir none [("abc", .file none "")])]) = [["sub", "abc"]] :=
  ⟨rfl, rfl, rfl⟩

/-- C9: with a cleared handle or a path that no longer refers to a regular
file, every pathutils File metadata accessor returns None and is_symlink
returns False, raising nothing. -/
theorem claim_C9 (fs : Entry) (h : FileH) (at_ mt ct : FPath → Nat)
    (hinv : ∀ p, h.path = some p → isfileAt fs p = false) :
    Pathutils.File.pathProp fs h = none ∧
    Pathutils.File.name fs h = none ∧
    Pathutils.File.linked_file fs h = none ∧
    Pathutils.File.is_symlink fs h = false ∧
    Pathutils.File.size fs h = none ∧
    Pathutils.File.last_access_time at_ fs h = none ∧
    Pathutils.File.last_modified_time mt fs h = none ∧
    Pathutils.File.last_metadata_modified_time ct fs h = none := by
  obtain ⟨hpath⟩ := h
  cases hpath with
  | none => exact ⟨rfl, rfl, rfl, rfl, rfl, rfl, rfl, rfl⟩
  | some p =>
    have hf : isfileAt fs p = false := hinv p rfl
    rcases hq : lookup fs p with _ | e
    · exact ⟨by simp [Pathutils.File.pathProp, hf],
        by simp [Pathutils.File.name, hf],
        by simp [Pathutils.File.linked_file, hq],
        by simp [Pathutils.File.is_symlink, hq],
        by simp [Pathutils.File.size, hq],
        by simp [Pathutils.File.last_access_time, hf],
        by simp [Pathutils.File.last_modified_time, hf],
        by simp [Pathutils.File.last_metadata_modified_time, hf]⟩
    · cases e with
      | file l d =>
        exfalso
        unfold isfileAt at hf
        rw [hq] at hf
        simp at hf
      | dir l cs =>
        exact ⟨by simp [Pathutils.File.pathProp, hf],
          by simp [Pathutils.File.name, hf],
          by simp [Pathutils.File.linked_file, hq],
          by simp [Pathutils.File.is_symlink, hq],
          by simp [Pathutils.File.size, hq],
          by simp [Pathutils.File.last_access_time, hf],
          by simp [Pathutils.File.last_modified_time, hf],
          by simp [Pathutils.File.last_metadata_modified_time, hf]⟩
      | other =>
        exact ⟨by simp [Pathutils.File.pathProp, hf],
          by simp [Pathutils.File.name, hf],
          by simp [Pathutils.File.linked_file, hq],
          by simp [Pathutils.File.is_symlink, hq],
          by simp [Pathutils.File.size, hq],
          by simp [Pathutils.File.last_access_time, hf],
          by simp [Pathutils.File.last_modified_time, hf],
          by simp [Pathutils.File.last_metadata_modified_time, hf]⟩

/-- C9 (witness): a handle with a set path over a filesystem holding no file
there gets None/False from every accessor. -/
theorem claim_C9_witness :
    Pathutils.File.pathProp .other ⟨some ["x"]⟩ = none ∧
    Pathutils.File.name .other ⟨some ["x"]⟩ = none ∧
    Pathutils.File.linked_file .other ⟨some ["x"]⟩ = none ∧
    Pathutils.File.is_symlink .other ⟨some ["x"]⟩ = false ∧
    Pathutils.File.size .other ⟨some ["x"]⟩ = none ∧
    Pathutils.File.last_access_time (fun _ => 0) .other ⟨some ["x"]⟩ = none ∧
    Pathutils.File.last_modified_time (fun _ => 0) .other ⟨some ["x"]⟩ = none ∧
    Pathutils.File.last_metadata_modified_time (fun _ => 0) .other ⟨some ["x"]⟩ = none :=
  claim_C9 .other ⟨some ["x"]⟩ (fun _ => 0) (fun _ => 0) (fun _ => 0)
    (fun p hp => by injection hp with h2; subst h2; rfl)

/-- C10: every modelled enumeration yields only regular files or
directories (entries of any other kind are skipped by both iterations), and
a utils recursive delete over a plain tree whose listing contains such an
entry leaves the entry in place and silently (no exception) skips removing
the now non-empty directory. -/
theorem claim_C10 :
    (∀ (cs : List (String × Entry)) p, p ∈ Pathutils.Folder.files cs → isFileE p.2 = true) ∧
    (∀ (cs : List (String × Entry)) p, p ∈ Pathutils.Folder.subfolders cs → isDirE p.2 = true) ∧
    (∀ (cs : List (String × Entry)) p, p ∈ Pathutils.Folder.iter cs →
      (isFileE p.2 || isDirE p.2) = true) ∧
    (∀ (cs : List (String × Entry)) p, p ∈ Utils.Folder.files cs → isFileE p.2 = true) ∧
    (∀ (cs : List (String × Entry)) p, p ∈ Utils.Folder.subfolders cs → isDirE p.2 = true) ∧
    (∀ (cs : List (String × Entry)) p, p ∈ Utils.Folder.iter cs → isFileE p.2 = true) ∧
    (∀ fuel cs n, esize (Entry.dir none cs) ≤ fuel + 1 → plainL cs = true →
      (n, Entry.other) ∈ cs →
      ∃ cs2, (Utils.Folder.delete (fuel+1) (.dir none cs)).remaining =
          some (.dir none cs2) ∧ (n, Entry.other) ∈ cs2 ∧
        (Utils.Folder.delete (fuel+1) (.dir none cs)).ok = true) := by
  refine ⟨fun cs p hp => (List.mem_filter.mp hp).2,
    fun cs p hp => (List.mem_filter.mp hp).2,
    fun cs p hp => (List.mem_filter.mp hp).2,
    fun cs p hp => (List.mem_filter.mp hp).2,
    fun cs p hp => (List.mem_filter.mp hp).2,
    fun cs p hp => (List.mem_filter.mp hp).2, ?_⟩
  intro fuel cs n hsz hpl hmem
  have hsub : ∀ p ∈ cs.filter (fun p => isDirE p.2),
      (Utils.Folder.delete fuel p.2).ok = true := by
    intro p hp2
    have h2 := List.mem_filter.mp hp2
    have hpsz : esize p.2 ≤ fuel := by
      have h1 := esize_lt_of_mem h2.1
      have h3 : esize (Entry.dir none cs) = 1 + esizeL cs := rfl
      omega
    exact utils_delete_ok fuel p.2 hpsz (plainL_of_mem hpl h2.1) h2.2
  have hok := uDelSubsGo_ok (Utils.Folder.delete fuel) _ hsub
  rcases hgo : uDelSubsGo (Utils.Folder.delete fuel)
      (cs.filter (fun p => isDirE p.2)) with ⟨fps, rem, ok⟩
  rw [hgo] at hok
  simp only at hok
  subst hok
  have hoth : (n, Entry.other) ∈ cs.filter (fun p => !(isFileE p.2 || isDirE p.2)) := by
    rw [List.mem_filter]
    exact ⟨hmem, rfl⟩
  have hne2 : (rem ++ cs.filter (fun p => !(isFileE p.2 || isDirE p.2))).isEmpty = false := by
    cases hq : (rem ++ cs.filter (fun p => !(isFileE p.2 || isDirE p.2))).isEmpty
    · rfl
    · exfalso
      rw [List.isEmpty_iff] at hq
      exact List.ne_nil_of_mem hoth (List.append_eq_nil.mp hq).2
  have hcond : ¬ (((uDelSubsGo (Utils.Folder.delete fuel)
      (cs.filter (fun p => isDirE p.2))).2.1 ++
      cs.filter (fun p => !(isFileE p.2 || isDirE p.2))).isEmpty = true) := by
    rw [hgo]
    intro hq
    rw [List.isEmpty_iff] at hq
    exact List.ne_nil_of_mem hoth (List.append_eq_nil.mp hq).2
  refine ⟨rem ++ cs.filter (fun p => !(isFileE p.2 || isDirE p.2)), ?_, ?_, ?_⟩
  · simp [Utils.Folder.delete, if_neg hcond, hgo]
  · exact List.mem_append_right rem hoth
  · simp [Utils.Folder.delete, if_neg hcond, hgo]

/-- C10 (witness): a plain directory listed as a file plus a socket-like
entry: the delete keeps the odd entry, keeps the directory, and raises
nothing. -/
theorem claim_C10_witness :
    ∃ cs2, (Utils.Folder.delete 5 (.dir none
        [("f", Entry.file none "data"), ("x", Entry.other)])).remaining =
      some (.dir none cs2) ∧ ("x", Entry.other) ∈ cs2 ∧
      (Utils.Folder.delete 5 (.dir none
        [("f", Entry.file none "data"), ("x", Entry.other)])).ok = true :=
  claim_C10.2.2.2.2.2.2 4 [("f", Entry.file none "data"), ("x", Entry.other)] "x"
    (by decide) (by decide)
    (List.mem_cons_of_mem _ (List.mem_cons_self _ _))
